import Mathlib

/-!
Verification development for the report-viewer and form-validation scripts of
this repository.  The JavaScript functions are shallowly embedded as Lean
functions over `List Char` / `String`; stateful DOM effects are modelled by
explicit state passing and by records of observable effects.
-/

set_option maxRecDepth 4000

namespace AmzViewer

/-- ASCII model of the JavaScript whitespace class (the regex class backslash-s
and the characters removed by String.trim): space, tab, line feed, carriage
return, vertical tab, form feed. -/
def jsWs (c : Char) : Bool :=
  c == ' ' || c == '\t' || c == '\n' || c == '\r' ||
  c == Char.ofNat 11 || c == Char.ofNat 12

/-- Word characters of the regex class backslash-w: ASCII letters, digits and
underscore. -/
def wordChar (c : Char) : Bool :=
  decide (97 ≤ c.toNat ∧ c.toNat ≤ 122) || decide (65 ≤ c.toNat ∧ c.toNat ≤ 90) ||
  decide (48 ≤ c.toNat ∧ c.toNat ≤ 57) || c == '_'

/-- The non-Latin script range u4e00 to u9fa5 preserved by `slugify`. -/
def cjkChar (c : Char) : Bool :=
  decide (0x4e00 ≤ c.toNat ∧ c.toNat ≤ 0x9fa5)

/-- The character class kept by the stripping step of `slugify`
(the complement of the regex class applied with an empty replacement). -/
def keepChar (c : Char) : Bool := wordChar c || cjkChar c || c == '-'

/-- Model of replacing every maximal run of whitespace by a single hyphen
(the global regex replace of one-or-more whitespace with a hyphen).  The
Boolean flag records whether the previous character was whitespace. -/
def wsCollapse : Bool → List Char → List Char
  | _, [] => []
  | prevWs, c :: t =>
    if jsWs c then
      if prevWs then wsCollapse true t else '-' :: wsCollapse true t
    else c :: wsCollapse false t

/-- Hyphen test for the collapsing and trimming steps. -/
def isHyph (c : Char) : Bool := c == '-'

/-- Model of replacing every run of two or more hyphens by a single hyphen:
only the first hyphen of each maximal run is kept, which is extensionally the
same replacement.  The flag records whether the previous character was a
hyphen. -/
def hyphCollapse : Bool → List Char → List Char
  | _, [] => []
  | prevH, c :: t =>
    if isHyph c then
      if prevH then hyphCollapse true t else '-' :: hyphCollapse true t
    else c :: hyphCollapse false t

/-- JavaScript String.trim modelled over the character list. -/
def trimWs (l : List Char) : List Char := (l.rdropWhile jsWs).dropWhile jsWs

/-- The final step of `slugify`: remove the leading run and the trailing run of
hyphens. -/
def trimHyph (l : List Char) : List Char := (l.rdropWhile isHyph).dropWhile isHyph

/-- The `slugify` helper of the report viewer, translated step by step from the
source: lower-case, trim, whitespace runs to single hyphens, strip characters
outside word characters / the CJK range / hyphen, collapse hyphen runs, trim
leading and trailing hyphens.  Lower-casing is modelled on ASCII letters via
`Char.toLower`. -/
def slugifyData (l : List Char) : List Char :=
  trimHyph (hyphCollapse false
    (List.filter keepChar (wsCollapse false (trimWs (l.map Char.toLower)))))

/-- String-level wrapper of `slugifyData`. -/
def slugify (s : String) : String := String.mk (slugifyData s.data)

/-- The identifier-derivation steps exactly as the specification words them:
lower-casing, collapsing whitespace runs to single hyphens, stripping
characters outside word characters and hyphen while preserving the CJK range,
collapsing repeated hyphens, and trimming leading and trailing hyphens — with
no separate whitespace-trim step. -/
def slugifySpecData (l : List Char) : List Char :=
  trimHyph (hyphCollapse false
    (List.filter keepChar (wsCollapse false (l.map Char.toLower))))

/-- String-level wrapper of `slugifySpecData`. -/
def slugifySpec (s : String) : String := String.mk (slugifySpecData s.data)

/-! Auxiliary lemmas relating the two slug pipelines. -/

/-- The tail of the slug pipeline after the stripping step. -/
def pipeTail (x : List Char) : List Char := trimHyph (hyphCollapse false x)

/-- The slug pipeline from the whitespace-collapsing step on. -/
def pipeFrom (l : List Char) : List Char :=
  pipeTail (List.filter keepChar (wsCollapse false l))

/-- The whitespace flag after a list is processed: `jsWs` of the last element,
or the incoming flag for the empty list. -/
def lastWsFlag (b : Bool) : List Char → Bool
  | [] => b
  | c :: t => lastWsFlag (jsWs c) t

/-- The hyphen flag after a list is processed. -/
def lastHyphFlag (b : Bool) : List Char → Bool
  | [] => b
  | c :: t => lastHyphFlag (isHyph c) t

/-! Decimal rendering of counters, modelling JavaScript number-to-string
conversion inside template literals. -/

/-- One decimal digit character (only applied to values below ten). -/
def digitChar : Nat → Char
  | 0 => '0' | 1 => '1' | 2 => '2' | 3 => '3' | 4 => '4'
  | 5 => '5' | 6 => '6' | 7 => '7' | 8 => '8' | _ => '9'

/-- Little-endian decimal digits of `n`, with explicit fuel so that the
recursion is structural and the kernel can evaluate it; `n` itself is always
sufficient fuel. -/
def decDigits : Nat → Nat → List Char
  | 0, _ => []
  | fuel + 1, n => if n = 0 then [] else digitChar (n % 10) :: decDigits fuel (n / 10)

/-- Decimal rendering of a natural number. -/
def natToDec (n : Nat) : String :=
  if n = 0 then "0" else String.mk (decDigits n n).reverse

/-- Decode a little-endian list of decimal digit characters. -/
def decValue : List Char → Nat
  | [] => 0
  | c :: t => (c.toNat - 48) + 10 * decValue t

/-- Decode a decimal string back to the number. -/
def decodeDec (s : String) : Nat := decValue s.data.reverse

/-! The uniqueness loop of `generateTOC`. -/

/-- The identifier tried at step `k` of the uniqueness loop in `generateTOC`:
the base slug itself, then the base slug with suffixes -1, -2, …. -/
def candidate (slug : String) : Nat → String
  | 0 => slug
  | k + 1 => slug ++ "-" ++ natToDec (k + 1)

/-- The uniqueness loop of `generateTOC`, with fuel: try `candidate slug k`,
`candidate slug (k + 1)`, … until one is absent from `used`.
`used.length + 1` attempts always suffice (`freshSlug_not_mem`), so the fuel
never runs out and the function computes exactly what the unbounded while
loop of the source computes: the first candidate not yet used. -/
def freshAux (used : List String) (slug : String) : Nat → Nat → String
  | 0, k => candidate slug k
  | fuel + 1, k =>
    if candidate slug k ∈ used then freshAux used slug fuel (k + 1)
    else candidate slug k

/-- Disambiguation of one base slug against the identifiers used so far. -/
def freshSlug (used : List String) (slug : String) : String :=
  freshAux used slug (used.length + 1) 0

/-! The identifiers generated by `generateTOC`. -/

/-- The base identifier for the heading at position `index` in `generateTOC`:
the slug of the heading text, or the positional fallback substituted by the
JavaScript "or" when the slug is the (falsy) empty string. -/
def baseId (text : String) (index : Nat) : String :=
  if slugify text = "" then "heading-" ++ natToDec index else slugify text

/-- The identifiers generated by `generateTOC`, one per heading in document
order: each heading gets its base identifier, disambiguated against the set
of identifiers used so far, and the result is added to the used set. -/
def tocIdsAux : Nat → List String → List String → List String
  | _, _, [] => []
  | index, used, t :: ts =>
    let u := freshSlug used (baseId t index)
    u :: tocIdsAux (index + 1) (u :: used) ts

/-- All identifiers of one render of the table of contents. -/
def tocIds (texts : List String) : List String := tocIdsAux 0 [] texts

/-! Model of the external Markdown engine and the DOM-side render pipeline.
The engine (loaded as window.marked) is an external collaborator of the
repository; only the fragment of its documented behaviour that the viewer
relies on is modelled: ATX headings become heading elements, a line that
begins a raw HTML tag is emitted verbatim (the default renderer does not
escape raw HTML, and the configuration installed by `renderMarkdown` has no
field that would change that), and any other non-blank line is wrapped as a
paragraph.  Tables, emphasis and other inline markup are outside what the
claims need and are left as plain text. -/

/-- The options object passed to the engine by `renderMarkdown`
(`marked.use` with gfm true, breaks true and a freshly constructed default
renderer): it contains no field that disables or escapes embedded raw HTML. -/
structure MarkedUseOptions where
  gfm : Bool
  breaks : Bool
  deriving DecidableEq

/-- The concrete options constructed in `renderMarkdown`. -/
def renderMarkdownOptions : MarkedUseOptions := { gfm := true, breaks := true }

/-- Helper of `splitLines`: the accumulator holds the current line reversed. -/
def splitLinesAux (acc : List Char) : List Char → List (List Char)
  | [] => [acc.reverse]
  | c :: t =>
    if c = '\n' then acc.reverse :: splitLinesAux [] t
    else splitLinesAux (c :: acc) t

/-- Split a character list into lines at newline characters. -/
def splitLines (l : List Char) : List (List Char) := splitLinesAux [] l

/-- A heading marker must be followed by a space, a tab or the end of the
line. -/
def atxRestOk : List Char → Bool
  | [] => true
  | c :: _ => c == ' ' || c == '\t'

/-- ATX heading recognition for one line: one to six hash marks followed by a
space, tab or end of line; the heading text is the trimmed remainder. -/
def atxHeading (line : List Char) : Option (Nat × List Char) :=
  let hashes := line.takeWhile (fun c => c == '#')
  let rest := line.dropWhile (fun c => c == '#')
  if 1 ≤ hashes.length ∧ hashes.length ≤ 6 ∧ atxRestOk rest then
    some (hashes.length, trimWs rest)
  else none

/-- Engine output for one input line (see the module note above). -/
def lineHtml (l : List Char) : List Char :=
  match atxHeading l with
  | some (n, text) =>
    ['<', 'h', digitChar n, '>'] ++ text ++ ['<', '/', 'h', digitChar n, '>']
  | none =>
    match l with
    | '<' :: rest => '<' :: rest
    | _ => if trimWs l = [] then [] else ['<', 'p', '>'] ++ l ++ ['<', '/', 'p', '>']

/-- Model of `marked.parse` under the configuration installed by
`renderMarkdown`. -/
def markedParse (opts : MarkedUseOptions) (md : String) : String :=
  String.mk (List.intercalate ['\n'] ((splitLines md.data).map lineHtml))

/-- Heading-element recognition on one line of container content, as seen by
the `querySelectorAll` over h1, h2, h3 and h4 in `generateTOC`: an opening
tag for levels one to four, the matching closing tag at the end of the line,
and the text content in between. -/
def htmlHeadingText (l : List Char) : Option (List Char) :=
  match l with
  | '<' :: 'h' :: d :: '>' :: rest =>
    if (d == '1' || d == '2' || d == '3' || d == '4') ∧ 5 ≤ rest.length ∧
        rest.drop (rest.length - 5) = ['<', '/', 'h', d, '>'] then
      some (rest.take (rest.length - 5))
    else none
  | _ => none

/-- The text contents of the heading elements of the rendered container, in
document order. -/
def htmlHeadings (html : String) : List String :=
  ((splitLines html.data).filterMap htmlHeadingText).map String.mk

/-- The view after a successful render: the container content, the generated
table-of-contents identifiers, and the per-entry active flags. -/
structure RenderedView where
  docHtml : String
  toc : List String
  active : List Bool
  deriving DecidableEq

/-- The terminal state of the viewer: either an error panel with a link back
to the case list, or a rendered view. -/
inductive ViewResult where
  | errorState (message : String) (backHref : String)
  | view (v : RenderedView)
  deriving DecidableEq

/-- Model of `showError`: the container is replaced by a terminal error
message together with a link back to the case-list page. -/
def showError (message : String) : ViewResult :=
  .errorState message "cases.html"

/-- The active flags immediately after `generateTOC` plus the initial
highlight that `renderMarkdown` puts on the first link. -/
def initialActive : Nat → List Bool
  | 0 => []
  | n + 1 => true :: List.replicate n false

/-- Model of `renderMarkdown`: if the engine is missing the error state is
shown; otherwise whatever the container held before (`container`, e.g. the
loading placeholder) is wholly replaced by the engine output, the table of
contents is generated from the heading elements of the new content, and the
first link is marked active. -/
def renderMarkdown (markedAvailable : Bool) (container : String) (md : String) : ViewResult :=
  if markedAvailable = false then showError "Markdown renderer failed to load"
  else
    let newHtml := markedParse renderMarkdownOptions md
    let headings := htmlHeadings newHtml
    let ids := tocIds headings
    .view { docHtml := newHtml, toc := ids, active := initialActive ids.length }

/-- The table-of-contents identifiers of a view result. -/
def tocOf : ViewResult → List String
  | .errorState _ _ => []
  | .view v => v.toc

/-- The container content of a view result. -/
def docHtmlOf : ViewResult → String
  | .errorState _ _ => ""
  | .view v => v.docHtml

/-- A Report Record as read from the sources (the local store, the global
collection or the index resource). -/
structure Report where
  id : String
  title : String
  created_at : String
  content : Option String
  markdown_path : String
  deriving DecidableEq

/-- The observable input/output effects of one `initReport` run: whether the
local store was read, whether the remote index was fetched, whether document
content was fetched, and the message of a caught exception if one was
thrown. -/
structure Effects where
  localRead : Bool
  indexFetched : Bool
  contentFetched : Bool
  thrown : Option String
  deriving DecidableEq

/-- Step 1 of `initReport`: resolve the identifier against the three sources
in order (the persisted local collection, the process-global preloaded
collection, the remote index resource), comparing by identifier equality and
stopping at the first match.  Returns the matched record, if any, together
with whether the remote index was fetched.  `indexResp` is `some records`
for a successful fetch of the index resource and `none` for a non-success
response. -/
def resolveReport (localReports : List Report) (windowReports : Option (List Report))
    (indexResp : Option (List Report)) (reportId : String) :
    Option Report × Bool :=
  let reports := if localReports.length > 0 then localReports else []
  match reports.find? (fun r => r.id == reportId) with
  | some r => (some r, false)
  | none =>
    let rWindow :=
      match windowReports with
      | some w => w.find? (fun r => r.id == reportId)
      | none => none
    match rWindow with
    | some r => (some r, false)
    | none =>
      match indexResp with
      | some staticReports => (staticReports.find? (fun r => r.id == reportId), true)
      | none => (none, true)

/-- The JavaScript truthiness test on the inline `content` field: an absent
field and the empty string are both falsy and trigger the content fetch. -/
def truthyContent : Option String → Option String
  | some c => if c = "" then none else some c
  | none => none

/-- The sample document embedded in `loadSampleMarkdown`, transcribed from
the source. -/
def sampleMarkdown : String := "
# 1. Market Overview & Competitor Background

## 1.1 Core Product Information
**Anker Soundcore Liberty 4** is a flagship true wireless noise-canceling earbud from Anker, featuring Hi-Res Audio, Heart Rate Monitoring, and personalized noise cancellation.

| Dimension | Parameter |
| :--- | :--- |
| **ASIN** | B0B9M5T6X8 |
| **Current Price** | $129.99 |
| **Rating** | 4.3 (12,450 ratings) |
| **Release Date** | 2022-09-28 |

> **AI Analysis Insight**: This product has the highest rating and review count in its price range, indicating high market acceptance.

## 1.2 Market Positioning Analysis
Positioned in the mid-to-high-end market, direct competitors include **AirPods Pro 2**, **Sony WF-1000XM5**, and **Samsung Galaxy Buds2 Pro**.

- Higher Value for Money ($129 vs $249)
- Unique Heart Rate Monitoring feature
- Excellent App customization experience

# 2. Deep User Review Mining

## 2.1 Positive Sentiment Analysis
Based on AI analysis of **5,000+** positive reviews, user satisfaction centers on:

### 2.1.1 Sound Quality Performance
> \"The sound quality is absolutely amazing, especially the LDAC support. Bass is punchy but not muddy.\"

Key Findings:
- **Keywords**: Crisp, Punchy Bass, LDAC, EQ settings
- **Share**: 45% of positive reviews mentioned sound quality

### 2.1.2 Comfort
Users widely report comfort provided by CloudComfort ear tips, suitable for long wear.

> \"I can wear these for 4+ hours without any discomfort.\"

# 3. Marketing Strategy Recommendations

## 3.1 Keyword Optimization (SEO)
Recommend adding the following long-tail keywords to the Listing:

1. `wireless earbuds with heart rate monitor`
2. `LDAC noise cancelling headphones`
3. `best workout earbuds 2024`

## 3.2 Off-Site Promotion Opportunities
- **YouTube Reviews**: Focus on fitness influencers
- **TikTok Shorts**: Showcase cool interactive features

# 4. Improvement Recommendations Summary

1. **Firmware Upgrade** - Prioritize fixing multipoint connection instability
2. **Packaging Optimization** - Enhance packaging texture
3. **Noise Cancellation Algorithm** - Optimize for wind noise scenarios

> **Conclusion**: This is a highly competitive product with significant value-for-money advantages.
"

/-- Model of `initReport`: resolve the identifier, load the content, render.
Returns the final view state and the observable effects.  `contentResp`
maps a fetched content path to `some text` (success) or `none` (non-success
response, which makes the code throw and the surrounding catch render the
generic failure state).  The function is total: every path ends in a view or
in an error state, never in an uncaught exception. -/
def initReport (container : String) (reportId : Option String)
    (localReports : List Report) (windowReports : Option (List Report))
    (indexResp : Option (List Report)) (contentResp : String → Option String)
    (markedAvailable : Bool) : ViewResult × Effects :=
  match reportId with
  | none =>
    (renderMarkdown markedAvailable container sampleMarkdown,
     { localRead := false, indexFetched := false, contentFetched := false, thrown := none })
  | some rid =>
    let res := resolveReport localReports windowReports indexResp rid
    match res.1 with
    | none =>
      (showError "Report not found",
       { localRead := true, indexFetched := res.2, contentFetched := false, thrown := none })
    | some report =>
      match truthyContent report.content with
      | some c =>
        (renderMarkdown markedAvailable container c,
         { localRead := true, indexFetched := res.2, contentFetched := false, thrown := none })
      | none =>
        match contentResp report.markdown_path with
        | none =>
          (showError "Bummer! Failed to load report. Please refresh and try again.",
           { localRead := true, indexFetched := res.2, contentFetched := true,
             thrown := some "Unable to load report content" })
        | some text =>
          (renderMarkdown markedAvailable container text,
           { localRead := true, indexFetched := res.2, contentFetched := true, thrown := none })

/-- The per-link active flags after `updateActiveLink` runs on some previous
state: the class is removed from every link, then added to link `i`. -/
def updateActiveLink (st : List Bool) (i : Nat) : List Bool :=
  (List.range st.length).map (fun j => j == i)

/-- The active flags of a view result. -/
def activeOf : ViewResult → List Bool
  | .errorState _ _ => []
  | .view v => v.active

/-! Model of `validateAsins` from the analysis-form script. -/

/-- Case-insensitive match of one character against the class A-Z, 0-9 of
the ASIN regex (the i flag folds letter case). -/
def asinBodyChar (c : Char) : Bool :=
  decide (65 ≤ c.toNat ∧ c.toNat ≤ 90) || decide (97 ≤ c.toNat ∧ c.toNat ≤ 122) ||
  decide (48 ≤ c.toNat ∧ c.toNat ≤ 57)

/-- The anchored test of the ASIN regex: the letter B (case-insensitively)
followed by exactly nine characters of the class. -/
def asinRegexTest (s : String) : Bool :=
  match s.data with
  | [] => false
  | c :: rest => (c == 'B' || c == 'b') && (rest.length == 9) && rest.all asinBodyChar

/-- JavaScript String.trim at the string level. -/
def jsTrim (s : String) : String := String.mk (trimWs s.data)

/-- JavaScript toUpperCase, modelled on ASCII letters via `Char.toUpper`. -/
def jsToUpper (s : String) : String := String.mk (s.data.map Char.toUpper)

/-- The separator class of the competitor split: newline, comma or
whitespace. -/
def sepChar (c : Char) : Bool := c == '\n' || c == ',' || jsWs c

/-- JavaScript String.split on the separator-run regex, including the empty
boundary pieces the engine produces for leading and trailing separators. -/
def splitSepsAux (prevSep : Bool) (acc : List Char) : List Char → List (List Char)
  | [] => [acc.reverse]
  | c :: t =>
    if sepChar c then
      if prevSep then splitSepsAux true acc t
      else acc.reverse :: splitSepsAux true [] t
    else splitSepsAux false (c :: acc) t

/-- String-level split on separator runs. -/
def jsSplitSeps (s : String) : List String :=
  (splitSepsAux false [] s.data).map String.mk

/-- The competitor token pipeline of `validateAsins`: split on separator
runs, trim and upper-case every piece, drop the falsy empty pieces. -/
def compTokens (compValue : String) : List String :=
  ((jsSplitSeps compValue).map (fun t => jsToUpper (jsTrim t))).filter
    (fun t => !(t == ""))

/-- The validation core of `validateAsins`, translated from the source (the
DOM feedback — validity messages, border colors, shake animation — carries
no decision content).  True exactly when the form submission proceeds. -/
def validateAsins (mainValue compValue : String) : Bool :=
  (if jsToUpper (jsTrim mainValue) = "" then false
   else asinRegexTest (jsToUpper (jsTrim mainValue))) &&
  (if jsTrim compValue = "" then false
   else ((compTokens (jsTrim compValue)).filter (fun a => !asinRegexTest a)).length == 0)

/-- The ASIN pattern as the claim words it, applied to the upper-cased
value: the letter B followed by exactly nine alphanumeric characters. -/
def asinSpecPattern (s : String) : Prop :=
  s.length = 10 ∧ s.data.head? = some 'B' ∧ ∀ c ∈ s.data.tail, asinBodyChar c

/-- The claim's validation predicate exactly as stated: the trimmed,
upper-cased main field matches the pattern, and the competitor field yields
at least one token with every token matching. -/
def validateSpecClaim (mainValue compValue : String) : Prop :=
  asinSpecPattern (jsToUpper (jsTrim mainValue)) ∧
  compTokens (jsTrim compValue) ≠ [] ∧
  ∀ t ∈ compTokens (jsTrim compValue), asinSpecPattern t

/-- The amended validation predicate: the at-least-one-token requirement is
weakened to the trimmed competitor field being non-empty, because a field
consisting only of separators yields zero tokens yet passes validation. -/
def validateSpecAmended (mainValue compValue : String) : Prop :=
  asinSpecPattern (jsToUpper (jsTrim mainValue)) ∧
  jsTrim compValue ≠ "" ∧
  ∀ t ∈ compTokens (jsTrim compValue), asinSpecPattern t

/-! Theorems. -/

theorem wsCollapse_true_eq_drop (l : List Char) :
    wsCollapse true l = wsCollapse false (l.dropWhile jsWs) := by
  induction l with
  | nil => rfl
  | cons c t ih =>
    by_cases h : jsWs c
    · simp [wsCollapse, h, List.dropWhile_cons, ih]
    · simp [wsCollapse, h, List.dropWhile_cons]

theorem trimHyph_cons_hyph (z : List Char) :
    trimHyph ('-' :: z) = trimHyph z := by
  unfold trimHyph
  have hrev : ('-' :: z).reverse = z.reverse ++ ['-'] := by simp
  unfold List.rdropWhile
  rw [hrev, List.dropWhile_append]
  by_cases h : (z.reverse.dropWhile isHyph).isEmpty
  · simp only [h, if_true]
    have : List.dropWhile isHyph ['-'] = [] := by decide
    rw [this]
    rw [List.isEmpty_iff] at h
    rw [h]
  · simp only [h, if_false]
    simp [List.dropWhile_cons, isHyph]

theorem trimHyph_hyphCollapse_flag (y : List Char) :
    trimHyph (hyphCollapse true y) = trimHyph (hyphCollapse false y) := by
  cases y with
  | nil => rfl
  | cons c t =>
    by_cases h : isHyph c
    · have hc : c = '-' := by
        simpa [isHyph] using h
      subst hc
      simp [hyphCollapse, h, trimHyph_cons_hyph]
    · simp [hyphCollapse, h]

theorem pipeTail_cons_hyph (y : List Char) :
    pipeTail ('-' :: y) = pipeTail y := by
  unfold pipeTail
  have h1 : hyphCollapse false ('-' :: y) = '-' :: hyphCollapse true y := by
    simp [hyphCollapse, isHyph]
  rw [h1, trimHyph_cons_hyph, trimHyph_hyphCollapse_flag]

theorem pipeFrom_ldrop (l : List Char) :
    pipeFrom l = pipeFrom (l.dropWhile jsWs) := by
  cases l with
  | nil => rfl
  | cons c t =>
    by_cases h : jsWs c
    · have h1 : wsCollapse false (c :: t) = '-' :: wsCollapse true t := by
        simp [wsCollapse, h]
      have h2 : List.dropWhile jsWs (c :: t) = List.dropWhile jsWs t := by
        simp [List.dropWhile_cons, h]
      unfold pipeFrom
      rw [h1, h2, wsCollapse_true_eq_drop]
      have hk : keepChar '-' = true := by decide
      rw [List.filter_cons_of_pos hk, pipeTail_cons_hyph]
    · have h2 : List.dropWhile jsWs (c :: t) = c :: t := by
        simp [List.dropWhile_cons, h]
      rw [h2]

theorem wsCollapse_concat (m : List Char) (b : Bool) (c : Char) :
    wsCollapse b (m ++ [c]) =
      wsCollapse b m ++
        (if jsWs c then (if lastWsFlag b m then [] else ['-']) else [c]) := by
  induction m generalizing b with
  | nil =>
    by_cases h : jsWs c <;> by_cases hb : b <;>
      simp [wsCollapse, lastWsFlag, h, hb]
  | cons a t ih =>
    by_cases ha : jsWs a <;> by_cases hb : b <;>
      simp [wsCollapse, lastWsFlag, ha, hb, ih]

theorem hyphCollapse_concat (m : List Char) (b : Bool) (c : Char) :
    hyphCollapse b (m ++ [c]) =
      hyphCollapse b m ++
        (if isHyph c then (if lastHyphFlag b m then [] else ['-']) else [c]) := by
  induction m generalizing b with
  | nil =>
    by_cases h : isHyph c <;> by_cases hb : b <;>
      simp [hyphCollapse, lastHyphFlag, h, hb]
  | cons a t ih =>
    by_cases ha : isHyph a <;> by_cases hb : b <;>
      simp [hyphCollapse, lastHyphFlag, ha, hb, ih]

theorem trimHyph_concat_hyph (x : List Char) :
    trimHyph (x ++ ['-']) = trimHyph x := by
  unfold trimHyph
  rw [List.rdropWhile_concat_pos]
  decide

theorem pipeTail_concat_hyph (y : List Char) :
    pipeTail (y ++ ['-']) = pipeTail y := by
  unfold pipeTail
  rw [hyphCollapse_concat]
  have hih : isHyph '-' = true := by decide
  rw [if_pos hih]
  by_cases h : lastHyphFlag false y
  · rw [if_pos h, List.append_nil]
  · rw [if_neg h, trimHyph_concat_hyph]

theorem pipeFrom_concat_ws (m : List Char) (c : Char) (hc : jsWs c) :
    pipeFrom (m ++ [c]) = pipeFrom m := by
  unfold pipeFrom
  rw [wsCollapse_concat, if_pos hc]
  by_cases h : lastWsFlag false m
  · rw [if_pos h, List.append_nil]
  · rw [if_neg h, List.filter_append]
    have hk : List.filter keepChar ['-'] = ['-'] := by decide
    rw [hk, pipeTail_concat_hyph]

theorem pipeFrom_rdrop (l : List Char) :
    pipeFrom l = pipeFrom (l.rdropWhile jsWs) := by
  induction l using List.reverseRecOn with
  | nil => rfl
  | append_singleton m c ih =>
    by_cases h : jsWs c
    · rw [List.rdropWhile_concat_pos _ _ c h, pipeFrom_concat_ws m c h, ih]
    · rw [List.rdropWhile_concat_neg _ _ c h]

/-- The redundant JavaScript `trim` in `slugify` is invisible: the code's slug
computation agrees with the specification's step list on every input. -/
theorem slugifyData_eq_spec (l : List Char) : slugifyData l = slugifySpecData l := by
  have h1 : slugifyData l = pipeFrom (trimWs (l.map Char.toLower)) := rfl
  have h2 : slugifySpecData l = pipeFrom (l.map Char.toLower) := rfl
  rw [h1, h2]
  unfold trimWs
  rw [← pipeFrom_ldrop, ← pipeFrom_rdrop]

theorem digitChar_toNat (d : Nat) (h : d < 10) : (digitChar d).toNat = 48 + d := by
  revert d
  decide

theorem decValue_decDigits (fuel n : Nat) (h : n ≤ fuel) :
    decValue (decDigits fuel n) = n := by
  induction fuel generalizing n with
  | zero =>
    have : n = 0 := Nat.le_zero.mp h
    subst this
    rfl
  | succ fuel ih =>
    by_cases hn : n = 0
    · subst hn
      rfl
    · have hrec : n / 10 ≤ fuel := by
        have : n / 10 < n := Nat.div_lt_self (Nat.pos_of_ne_zero hn) (by omega)
        omega
      have hd : (digitChar (n % 10)).toNat = 48 + n % 10 :=
        digitChar_toNat _ (Nat.mod_lt _ (by omega))
      simp only [decDigits, hn, if_false, decValue, ih _ hrec, hd]
      omega

theorem decodeDec_natToDec (n : Nat) : decodeDec (natToDec n) = n := by
  by_cases hn : n = 0
  · subst hn
    decide
  · unfold natToDec decodeDec
    rw [if_neg hn]
    simpa using decValue_decDigits n n (Nat.le_refl n)

theorem natToDec_injective : Function.Injective natToDec := by
  intro a b h
  rw [← decodeDec_natToDec a, ← decodeDec_natToDec b, h]

theorem natToDec_data_ne_nil (n : Nat) : (natToDec n).data ≠ [] := by
  by_cases hn : n = 0
  · subst hn
    decide
  · unfold natToDec
    rw [if_neg hn]
    have hne : decDigits n n ≠ [] := by
      cases n with
      | zero => exact absurd rfl hn
      | succ m => simp [decDigits]
    simpa using hne

theorem natToDec_length_pos (n : Nat) : 0 < (natToDec n).length := by
  have h := natToDec_data_ne_nil n
  have : (natToDec n).length = (natToDec n).data.length := rfl
  rw [this]
  exact List.length_pos.mpr h

theorem natToDec_ne_empty (n : Nat) : natToDec n ≠ "" := by
  intro h
  have := natToDec_length_pos n
  rw [h] at this
  exact absurd this (by decide)

theorem candidate_injective (slug : String) : Function.Injective (candidate slug) := by
  intro i j h
  have hdash : ("-" : String).length = 1 := rfl
  cases i with
  | zero =>
    cases j with
    | zero => rfl
    | succ j =>
      exfalso
      have hlen := congrArg String.length h
      simp only [candidate, String.length_append] at hlen
      have hpos := natToDec_length_pos (j + 1)
      omega
  | succ i =>
    cases j with
    | zero =>
      exfalso
      have hlen := congrArg String.length h
      simp only [candidate, String.length_append] at hlen
      have hpos := natToDec_length_pos (i + 1)
      omega
    | succ j =>
      have hdata := congrArg String.data h
      simp only [candidate, String.data_append] at hdata
      have hcancel : (natToDec (i + 1)).data = (natToDec (j + 1)).data :=
        List.append_cancel_left hdata
      have : decodeDec (natToDec (i + 1)) = decodeDec (natToDec (j + 1)) := by
        unfold decodeDec
        rw [hcancel]
      rw [decodeDec_natToDec, decodeDec_natToDec] at this
      omega

theorem candidate_ne_empty (slug : String) (h : slug ≠ "") (j : Nat) :
    candidate slug j ≠ "" := by
  cases j with
  | zero => exact h
  | succ j =>
    intro habs
    have hlen := congrArg String.length habs
    simp only [candidate, String.length_append] at hlen
    have hdash : ("-" : String).length = 1 := rfl
    have hempty : ("" : String).length = 0 := rfl
    have hpos := natToDec_length_pos (j + 1)
    omega

theorem freshAux_not_mem (used : List String) (slug : String) (fuel k : Nat)
    (h : ∃ j, j < fuel ∧ candidate slug (k + j) ∉ used) :
    freshAux used slug fuel k ∉ used := by
  induction fuel generalizing k with
  | zero =>
    obtain ⟨j, hj, _⟩ := h
    omega
  | succ fuel ih =>
    by_cases hmem : candidate slug k ∈ used
    · simp only [freshAux]
      rw [if_pos hmem]
      apply ih
      obtain ⟨j, hj, hfree⟩ := h
      cases j with
      | zero => exact absurd hmem (by simpa using hfree)
      | succ j' =>
        exact ⟨j', by omega, by
          have : k + 1 + j' = k + (j' + 1) := by omega
          rw [this]
          exact hfree⟩
    · simp only [freshAux]
      rw [if_neg hmem]
      exact hmem

theorem exists_candidate_not_mem (used : List String) (slug : String) :
    ∃ j, j < used.length + 1 ∧ candidate slug j ∉ used := by
  by_contra habs
  push_neg at habs
  set n := used.length with hn
  set L := (List.range (n + 1)).map (candidate slug) with hL
  have hnodup : L.Nodup := (List.nodup_range _).map (candidate_injective slug)
  have hsub : ∀ x ∈ L, x ∈ used := by
    intro x hx
    rw [hL] at hx
    obtain ⟨j, hj, rfl⟩ := List.mem_map.mp hx
    exact habs j (List.mem_range.mp hj)
  have hcard1 : L.toFinset.card = n + 1 := by
    rw [List.toFinset_card_of_nodup hnodup, hL]
    simp
  have hcard2 : L.toFinset.card ≤ used.toFinset.card := by
    apply Finset.card_le_card
    intro x hx
    rw [List.mem_toFinset] at hx ⊢
    exact hsub x hx
  have hcard3 : used.toFinset.card ≤ n := by
    rw [hn]
    exact List.toFinset_card_le used
  omega

theorem freshSlug_not_mem (used : List String) (slug : String) :
    freshSlug used slug ∉ used := by
  apply freshAux_not_mem
  obtain ⟨j, hj, hfree⟩ := exists_candidate_not_mem used slug
  exact ⟨j, hj, by simpa using hfree⟩

theorem freshAux_is_candidate (used : List String) (slug : String) (fuel k : Nat) :
    ∃ j, freshAux used slug fuel k = candidate slug j := by
  induction fuel generalizing k with
  | zero => exact ⟨k, rfl⟩
  | succ fuel ih =>
    by_cases hmem : candidate slug k ∈ used
    · simp only [freshAux]
      rw [if_pos hmem]
      exact ih (k + 1)
    · exact ⟨k, by simp only [freshAux]; rw [if_neg hmem]⟩

theorem freshSlug_ne_empty (used : List String) (slug : String) (h : slug ≠ "") :
    freshSlug used slug ≠ "" := by
  obtain ⟨j, hj⟩ := freshAux_is_candidate used slug (used.length + 1) 0
  unfold freshSlug
  rw [hj]
  exact candidate_ne_empty slug h j

theorem baseId_ne_empty (text : String) (index : Nat) : baseId text index ≠ "" := by
  unfold baseId
  by_cases h : slugify text = ""
  · rw [if_pos h]
    intro habs
    have hlen := congrArg String.length habs
    rw [String.length_append] at hlen
    have hh : ("heading-" : String).length = 8 := rfl
    have hempty : ("" : String).length = 0 := rfl
    omega
  · rw [if_neg h]
    exact h

theorem tocIdsAux_nodup_disjoint (ts : List String) (index : Nat) (used : List String) :
    (tocIdsAux index used ts).Nodup ∧ ∀ x ∈ tocIdsAux index used ts, x ∉ used := by
  induction ts generalizing index used with
  | nil => exact ⟨List.nodup_nil, by intro x hx; cases hx⟩
  | cons t ts ih =>
    obtain ⟨hnd, hdisj⟩ := ih (index + 1) (freshSlug used (baseId t index) :: used)
    have hu : freshSlug used (baseId t index) ∉ used := freshSlug_not_mem _ _
    constructor
    · refine List.nodup_cons.mpr ⟨?_, hnd⟩
      intro habs
      have := hdisj _ habs
      exact this (List.mem_cons_self _ _)
    · intro x hx
      rcases List.mem_cons.mp hx with h | h
      · rw [h]
        exact hu
      · intro habs
        exact hdisj x h (List.mem_cons_of_mem _ habs)

theorem tocIdsAux_ne_empty (ts : List String) (index : Nat) (used : List String) :
    ∀ x ∈ tocIdsAux index used ts, x ≠ "" := by
  induction ts generalizing index used with
  | nil => intro x hx; cases hx
  | cons t ts ih =>
    intro x hx
    rcases List.mem_cons.mp hx with h | h
    · rw [h]
      exact freshSlug_ne_empty _ _ (baseId_ne_empty t index)
    · exact ih (index + 1) _ x h

/-! Helper lemmas about `resolveReport`. -/

theorem find_guard (l : List Report) (p : Report → Bool) :
    (if l.length > 0 then l else []).find? p = l.find? p := by
  cases l <;> simp

theorem resolveReport_local (localReports : List Report)
    (windowReports : Option (List Report)) (indexResp : Option (List Report))
    (rid : String) (r : Report)
    (h : localReports.find? (fun q => q.id == rid) = some r) :
    resolveReport localReports windowReports indexResp rid = (some r, false) := by
  simp only [resolveReport, find_guard, h]

theorem resolveReport_window (localReports : List Report)
    (w : List Report) (indexResp : Option (List Report))
    (rid : String) (r : Report)
    (hl : localReports.find? (fun q => q.id == rid) = none)
    (hw : w.find? (fun q => q.id == rid) = some r) :
    resolveReport localReports (some w) indexResp rid = (some r, false) := by
  simp only [resolveReport, find_guard, hl, hw]

theorem resolveReport_fetch (localReports : List Report)
    (windowReports : Option (List Report)) (indexResp : Option (List Report))
    (rid : String)
    (hl : localReports.find? (fun q => q.id == rid) = none)
    (hw : ∀ w, windowReports = some w → w.find? (fun q => q.id == rid) = none) :
    resolveReport localReports windowReports indexResp rid =
      (indexResp.bind (fun l => l.find? (fun q => q.id == rid)), true) := by
  cases windowReports with
  | none =>
    cases indexResp <;> simp only [resolveReport, find_guard, hl] <;> rfl
  | some w =>
    cases indexResp <;> simp only [resolveReport, find_guard, hl, hw w rfl] <;> rfl

/-- C1: report resolution searches the persisted local collection, then the
process-global preloaded collection, then the remote index resource, in that
order, comparing by exact identifier equality; the record of the first
source containing a match is returned and the remote index is not fetched
once an earlier source matched. -/
theorem claim_C1_resolution_order (localReports : List Report)
    (windowReports : Option (List Report)) (indexResp : Option (List Report))
    (rid : String) :
    (∀ r, localReports.find? (fun q => q.id == rid) = some r →
        resolveReport localReports windowReports indexResp rid = (some r, false)) ∧
    (localReports.find? (fun q => q.id == rid) = none →
      ∀ w r, windowReports = some w → w.find? (fun q => q.id == rid) = some r →
        resolveReport localReports windowReports indexResp rid = (some r, false)) ∧
    (localReports.find? (fun q => q.id == rid) = none →
      (∀ w, windowReports = some w → w.find? (fun q => q.id == rid) = none) →
        resolveReport localReports windowReports indexResp rid =
          (indexResp.bind (fun l => l.find? (fun q => q.id == rid)), true)) := by
  refine ⟨?_, ?_, ?_⟩
  · intro r h
    exact resolveReport_local localReports windowReports indexResp rid r h
  · intro hl w r hw hfind
    rw [hw]
    exact resolveReport_window localReports w indexResp rid r hl hfind
  · intro hl hw
    exact resolveReport_fetch localReports windowReports indexResp rid hl hw

/-- Witness for C1 at a concrete input: the same identifier is present in
all three sources with different records, and the local record wins without
the remote index being fetched. -/
theorem claim_C1_resolution_order_witness :
    resolveReport
      [{ id := "x", title := "local", created_at := "d1",
         content := some "A", markdown_path := "a.md" }]
      (some [{ id := "x", title := "global", created_at := "d2",
               content := some "B", markdown_path := "b.md" }])
      (some [{ id := "x", title := "remote", created_at := "d3",
               content := some "C", markdown_path := "c.md" }])
      "x" =
      (some { id := "x", title := "local", created_at := "d1",
              content := some "A", markdown_path := "a.md" }, false) :=
  (claim_C1_resolution_order _ _ _ _).1 _ (by decide)

/-- C4: when the identifier matches no record in any source — including a
non-success response for the remote index — `initReport` ends in the
terminal Not-Found error state with the link back to the case list, and in
no other state (the model is a total function, so no uncaught exception is
possible). -/
theorem claim_C4_not_found (container rid : String) (localReports : List Report)
    (windowReports : Option (List Report)) (indexResp : Option (List Report))
    (contentResp : String → Option String) (markedAvailable : Bool)
    (hlocal : localReports.find? (fun q => q.id == rid) = none)
    (hwindow : ∀ w, windowReports = some w → w.find? (fun q => q.id == rid) = none)
    (hindex : ∀ l, indexResp = some l → l.find? (fun q => q.id == rid) = none) :
    initReport container (some rid) localReports windowReports indexResp
        contentResp markedAvailable =
      (ViewResult.errorState "Report not found" "cases.html",
       { localRead := true, indexFetched := true, contentFetched := false,
         thrown := none }) := by
  have hres : resolveReport localReports windowReports indexResp rid = (none, true) := by
    rw [resolveReport_fetch localReports windowReports indexResp rid hlocal hwindow]
    cases indexResp with
    | none => rfl
    | some l =>
      show (l.find? (fun q => q.id == rid), true) = (none, true)
      rw [hindex l rfl]
  simp only [initReport, hres]
  rfl

/-- Witness for C4: scenario B of the specification — an unknown identifier,
empty local store, no global collection and a 404 index response. -/
theorem claim_C4_not_found_witness :
    initReport "" (some "does-not-exist") [] none none (fun _ => none) true =
      (ViewResult.errorState "Report not found" "cases.html",
       { localRead := true, indexFetched := true, contentFetched := false,
         thrown := none }) :=
  claim_C4_not_found "" "does-not-exist" [] none none (fun _ => none) true
    rfl (fun _ h => Option.noConfusion h) (fun _ h => Option.noConfusion h)

/-- C5 (recording the code bug): the configuration that `renderMarkdown`
installs contains only the gfm and breaks switches and a default renderer —
nothing that suppresses raw HTML — so an embedded raw tag is written into
the container verbatim as live markup rather than being treated as inert:
at the failing input the whole container content is exactly the raw tag. -/
theorem claim_C5_raw_html_live :
    docHtmlOf (renderMarkdown true "" "<img src=x onerror=alert(1)>") =
      "<img src=x onerror=alert(1)>" ∧
    renderMarkdownOptions = { gfm := true, breaks := true } :=
  ⟨by decide, rfl⟩

/-- C6: a matched record with truthy inline content is rendered from that
content with no content fetch; a record without truthy inline content causes
a fetch of its referenced location, and a non-success response to that fetch
is the terminal failure raised as the unable-to-load error and caught into
the generic failure state. -/
theorem claim_C6_inline_content (container rid : String)
    (localReports : List Report) (windowReports : Option (List Report))
    (indexResp : Option (List Report)) (contentResp : String → Option String)
    (markedAvailable : Bool) (report : Report)
    (hres : (resolveReport localReports windowReports indexResp rid).1 = some report) :
    (∀ c, report.content = some c → c ≠ "" →
        initReport container (some rid) localReports windowReports indexResp
            contentResp markedAvailable =
          (renderMarkdown markedAvailable container c,
           { localRead := true,
             indexFetched := (resolveReport localReports windowReports indexResp rid).2,
             contentFetched := false, thrown := none })) ∧
    (truthyContent report.content = none →
      (contentResp report.markdown_path = none →
          initReport container (some rid) localReports windowReports indexResp
              contentResp markedAvailable =
            (ViewResult.errorState
               "Bummer! Failed to load report. Please refresh and try again." "cases.html",
             { localRead := true,
               indexFetched := (resolveReport localReports windowReports indexResp rid).2,
               contentFetched := true, thrown := some "Unable to load report content" })) ∧
      (∀ text, contentResp report.markdown_path = some text →
          initReport container (some rid) localReports windowReports indexResp
              contentResp markedAvailable =
            (renderMarkdown markedAvailable container text,
             { localRead := true,
               indexFetched := (resolveReport localReports windowReports indexResp rid).2,
               contentFetched := true, thrown := none }))) := by
  have hp : resolveReport localReports windowReports indexResp rid =
      (some report, (resolveReport localReports windowReports indexResp rid).2) := by
    rw [← hres]
  refine ⟨?_, ?_⟩
  · intro c hc hcne
    have ht : truthyContent report.content = some c := by
      rw [hc]
      simp [truthyContent, hcne]
    conv in initReport _ _ _ _ _ _ _ => rw [initReport]
    rw [hp]
    simp only [ht]
  · intro htc
    refine ⟨?_, ?_⟩
    · intro hfetch
      conv in initReport _ _ _ _ _ _ _ => rw [initReport]
      rw [hp]
      simp only [htc, hfetch]
      rfl
    · intro text hfetch
      conv in initReport _ _ _ _ _ _ _ => rw [initReport]
      rw [hp]
      simp only [htc, hfetch]

/-- Witness for C6: a record with inline content renders it with no content
fetch. -/
theorem claim_C6_inline_content_witness :
    initReport "" (some "abc")
      [{ id := "abc", title := "T", created_at := "d",
         content := some "# Hi", markdown_path := "p.md" }]
      none none (fun _ => none) true =
      (renderMarkdown true "" "# Hi",
       { localRead := true, indexFetched := false, contentFetched := false,
         thrown := none }) :=
  (claim_C6_inline_content "" "abc"
    [{ id := "abc", title := "T", created_at := "d",
       content := some "# Hi", markdown_path := "p.md" }]
    none none (fun _ => none) true
    { id := "abc", title := "T", created_at := "d",
      content := some "# Hi", markdown_path := "p.md" }
    rfl).1 "# Hi" rfl (by decide)

/-- C7: with no identifier supplied, `initReport` renders the built-in
sample document with no local-store read and no network fetch, the generated
table of contents is non-empty, and the first entry is the one marked active
immediately after generation. -/
theorem claim_C7_sample_fallback (container : String) (localReports : List Report)
    (windowReports : Option (List Report)) (indexResp : Option (List Report))
    (contentResp : String → Option String) :
    initReport container none localReports windowReports indexResp contentResp true =
      (renderMarkdown true container sampleMarkdown,
       { localRead := false, indexFetched := false, contentFetched := false,
         thrown := none }) ∧
    1 ≤ (tocOf (renderMarkdown true container sampleMarkdown)).length ∧
    (activeOf (renderMarkdown true container sampleMarkdown)).head? = some true ∧
    (activeOf (renderMarkdown true container sampleMarkdown)).count true = 1 := by
  have hcont : renderMarkdown true container sampleMarkdown =
      renderMarkdown true "" sampleMarkdown := rfl
  refine ⟨rfl, ?_, ?_, ?_⟩ <;> rw [hcont] <;> decide

/-- C8: the single-active invariant — after any activation event (a click on
an entry or a scroll-driven visibility change, both of which run
`updateActiveLink`) at most one entry is active regardless of the previous
state, because every link is first deactivated; the initial highlight after
generation also satisfies the invariant. -/
theorem claim_C8_single_active (st : List Bool) (i n : Nat) :
    (updateActiveLink st i).count true ≤ 1 ∧ (initialActive n).count true ≤ 1 := by
  constructor
  · unfold updateActiveLink
    have hcount : ∀ m, ((List.range m).map (fun j => j == i)).count true =
        if i < m then 1 else 0 := by
      intro m
      induction m with
      | zero => simp
      | succ m ih =>
        rw [List.range_succ, List.map_append, List.count_append, ih]
        by_cases he : i = m
        · subst he
          have h1 : ¬i < i := by omega
          have h2 : i < i + 1 := by omega
          simp [h1, h2, List.count_cons]
        · have hne : (m == i) = false := by
            simp only [beq_eq_false_iff_ne]
            omega
          by_cases h : i < m
          · have h2 : i < m + 1 := by omega
            simp [h, h2, hne, List.count_cons]
          · have h2 : ¬i < m + 1 := by omega
            simp [h, h2, hne, List.count_cons]
    rw [hcount st.length]
    by_cases h : i < st.length <;> simp [h]
  · cases n with
    | zero => simp [initialActive]
    | succ n =>
      simp [initialActive, List.count_cons, List.count_replicate]

/-- C9: the table of contents is a function of the document text alone — the
render wholly replaces the container, so rendering the same text again (with
any prior container state, in particular the state left by the first render)
yields the identical identifier list and entry count. -/
theorem claim_C9_render_idempotent (markedAvailable : Bool)
    (md container₁ container₂ : String) :
    tocOf (renderMarkdown markedAvailable container₁ md) =
      tocOf (renderMarkdown markedAvailable container₂ md) ∧
    (tocOf (renderMarkdown markedAvailable container₁ md)).length =
      (tocOf (renderMarkdown markedAvailable container₂ md)).length :=
  ⟨rfl, rfl⟩

/-- C2: within one render the generated identifiers are pairwise distinct
and non-empty, and repeated heading texts are disambiguated by the -1, -2, …
suffix rule, e.g. the text Market Overview twice yields market-overview and
market-overview-1. -/
theorem claim_C2_ids_unique (texts : List String) :
    (tocIds texts).Nodup ∧ (∀ x ∈ tocIds texts, x ≠ "") ∧
      tocIds ["Market Overview", "Market Overview"] =
        ["market-overview", "market-overview-1"] := by
  refine ⟨(tocIdsAux_nodup_disjoint texts 0 []).1, tocIdsAux_ne_empty texts 0 [], ?_⟩
  decide

/-- C3: the slug is computed by exactly the claimed steps — the code's
`slugify` (which also contains a whitespace trim invisible in the result)
agrees with the claimed step composition `slugifySpec` on every input, and
an empty result is replaced by the positional fallback identifier. -/
theorem claim_C3_slug_steps :
    (∀ s : String, slugify s = slugifySpec s) ∧
    (∀ (t : String) (i : Nat),
      baseId t i =
        if slugifySpec t = "" then "heading-" ++ natToDec i else slugifySpec t) := by
  have key : ∀ s : String, slugify s = slugifySpec s := fun s =>
    congrArg String.mk (slugifyData_eq_spec s.data)
  refine ⟨key, fun t i => ?_⟩
  unfold baseId
  rw [key t]

theorem toUpper_not_lower (c : Char) :
    ¬(97 ≤ (Char.toUpper c).toNat ∧ (Char.toUpper c).toNat ≤ 122) := by
  have key : ∀ m, m < 123 → 97 ≤ m →
      ¬(97 ≤ (Char.ofNat (m - 32)).toNat ∧ (Char.ofNat (m - 32)).toNat ≤ 122) := by
    decide
  show ¬(97 ≤ (Char.toUpper c).toNat ∧ (Char.toUpper c).toNat ≤ 122)
  unfold Char.toUpper
  by_cases h : c.toNat ≥ 97 ∧ c.toNat ≤ 122
  · simp only [if_pos h]
    exact key c.toNat (by omega) h.1
  · simp only [if_neg h]
    exact h

theorem toUpper_ne_b (c : Char) : (Char.toUpper c == 'b') = false := by
  by_contra h
  rw [Bool.not_eq_false] at h
  have he : Char.toUpper c = 'b' := eq_of_beq h
  have hn : 97 ≤ (Char.toUpper c).toNat ∧ (Char.toUpper c).toNat ≤ 122 := by
    rw [he]
    decide
  exact toUpper_not_lower c hn

theorem asinRegexTest_iff_of_upper (t : String) :
    asinRegexTest (jsToUpper t) = true ↔ asinSpecPattern (jsToUpper t) := by
  have hdata : (jsToUpper t).data = t.data.map Char.toUpper := rfl
  have hlen : (jsToUpper t).length = (t.data.map Char.toUpper).length := rfl
  unfold asinRegexTest asinSpecPattern
  rw [hdata, hlen]
  cases hm : t.data.map Char.toUpper with
  | nil => simp
  | cons c rest =>
    have hhead : (t.data.map Char.toUpper).head? = some c := by
      rw [hm]
      rfl
    rw [List.head?_map] at hhead
    cases hd : t.data.head? with
    | none =>
      rw [hd] at hhead
      cases hhead
    | some a =>
      rw [hd] at hhead
      have hca : c = Char.toUpper a := by
        simp only [Option.map_some'] at hhead
        exact (Option.some.inj hhead).symm
      subst hca
      simp only [toUpper_ne_b a, Bool.or_false, Bool.and_eq_true, beq_iff_eq,
        List.all_eq_true, List.head?_cons, List.tail_cons, List.length_cons,
        Option.some.injEq]
      constructor
      · rintro ⟨⟨hB, hlen9⟩, hall⟩
        exact ⟨by omega, hB, hall⟩
      · rintro ⟨h10, hB, hall⟩
        exact ⟨⟨hB, by omega⟩, hall⟩

theorem compTokens_mem_upper (v t : String) (h : t ∈ compTokens v) :
    ∃ u, t = jsToUpper u := by
  unfold compTokens at h
  have h1 := List.mem_of_mem_filter h
  obtain ⟨pre, _, hpre⟩ := List.mem_map.mp h1
  exact ⟨jsTrim pre, hpre.symm⟩

/-- C10 counterexample: a competitor field consisting of a single comma is
non-empty after trimming but splits into zero tokens, and the code then
accepts the form — the claim as stated requires at least one token and so
predicts rejection. -/
theorem claim_C10_counterexample :
    validateAsins "B012345678" "," = true ∧ ¬validateSpecClaim "B012345678" "," := by
  constructor
  · decide
  · intro h
    exact h.2.1 (by decide)

/-- C10 as amended: validation succeeds exactly when the trimmed upper-cased
main field matches the ASIN pattern, the trimmed competitor field is
non-empty, and every token obtained from the split (possibly none) matches
the pattern. -/
theorem claim_C10_amended (mainValue compValue : String) :
    validateAsins mainValue compValue = true ↔
      validateSpecAmended mainValue compValue := by
  unfold validateAsins validateSpecAmended
  by_cases hm : jsToUpper (jsTrim mainValue) = ""
  · constructor
    · intro h
      rw [if_pos hm, Bool.false_and] at h
      cases h
    · rintro ⟨hp, -, -⟩
      rw [hm] at hp
      exact absurd hp.1 (by decide)
  · rw [if_neg hm]
    by_cases hc : jsTrim compValue = ""
    · rw [if_pos hc, Bool.and_false]
      constructor
      · intro h
        cases h
      · rintro ⟨-, hne, -⟩
        exact absurd hc hne
    · rw [if_neg hc, Bool.and_eq_true]
      have hfilter :
          (((compTokens (jsTrim compValue)).filter (fun a => !asinRegexTest a)).length
              == 0) = true ↔
            ∀ x ∈ compTokens (jsTrim compValue), asinRegexTest x = true := by
        rw [beq_iff_eq, List.length_eq_zero, List.filter_eq_nil_iff]
        constructor
        · intro h x hx
          have := h x hx
          simpa using this
        · intro h x hx
          simp [h x hx]
      constructor
      · rintro ⟨hmain, hcomp⟩
        refine ⟨(asinRegexTest_iff_of_upper (jsTrim mainValue)).mp hmain, hc, ?_⟩
        intro tok htok
        obtain ⟨u, rfl⟩ := compTokens_mem_upper _ _ htok
        exact (asinRegexTest_iff_of_upper u).mp (hfilter.mp hcomp _ htok)
      · rintro ⟨hmain, -, hall⟩
        refine ⟨(asinRegexTest_iff_of_upper (jsTrim mainValue)).mpr hmain, ?_⟩
        apply hfilter.mpr
        intro tok htok
        obtain ⟨u, rfl⟩ := compTokens_mem_upper _ _ htok
        exact (asinRegexTest_iff_of_upper u).mpr (hall _ htok)

end AmzViewer
